import Mathlib

/-!
Verification of the `zig_deps` dependency checker (`src/zig_deps/main.py`).

The program scans a directory tree for `build.zig.zon` manifests, extracts
`.url` dependency declarations, asks an external oracle (`zig fetch`) for the
current and latest content hashes of each dependency, and either reports the
staleness or applies an update (`zig fetch --save`).

The embedding below models:
  * text as `List Char`, with Python string operations (`strip`, `split`,
    slicing) translated character by character;
  * the filesystem as an inductive tree of named files and directories;
  * the oracle as a pair of functions returning `Option`, where `none`
    stands for a subprocess exiting non-zero (Python raises
    `CalledProcessError` because the calls pass `check=True`);
  * the run of `main` as a trace of events (oracle invocations and lines
    written to stdout) together with an optional uncaught Python error.
-/

set_option autoImplicit false

deriving instance DecidableEq for Except

namespace ZigDeps

/-- Shorthand: the character list of a string literal. -/
def str (s : String) : List Char := s.data

/-- Python `str.strip()`: drop whitespace from both ends. -/
def pyStrip (l : List Char) : List Char :=
  ((l.dropWhile Char.isWhitespace).reverse.dropWhile Char.isWhitespace).reverse

/-- Python `str.startswith(p)` on a character list. -/
def startsWith (p : String) (l : List Char) : Bool :=
  List.isPrefixOf p.data l

/-- Helper for Python `str.split(sep)` with a one-character separator:
returns the first chunk and the list of remaining chunks. -/
def splitCharAux (c : Char) : List Char → List Char × List (List Char)
  | [] => ([], [])
  | x :: xs =>
    let r := splitCharAux c xs
    if x = c then ([], r.1 :: r.2) else (x :: r.1, r.2)

/-- Python `str.split(sep)` with a one-character separator: always returns a
non-empty list of chunks (`"".split(c) == [""]`). -/
def pySplit (c : Char) (l : List Char) : List (List Char) :=
  (splitCharAux c l).1 :: (splitCharAux c l).2

/-- `HASH_DISPLAY_LEN = 7` from the source. -/
def HASH_DISPLAY_LEN : Nat := 7

/-- `ZON = "build.zig.zon"` from the source. -/
def ZON : String := "build.zig.zon"

/-- Uncaught Python exceptions the program can raise. -/
inductive PyError where
  /-- `IndexError` from `line.split('"')[1]` when the line has no quote. -/
  | indexError
  /-- `RuntimeError(msg)` raised by `get_base`. -/
  | runtimeError (msg : String)
  /-- `subprocess.CalledProcessError` from `check=True` on non-zero exit. -/
  | calledProcessError
  deriving DecidableEq

/-- A directory path, as a list of path components. -/
abbrev Path := List String

/-- The `Dependencies` mapping (`defaultdict[Path, list[str]]`), modelled as
an association list in key-insertion order, which is how Python dicts
iterate. -/
abbrev Dependencies := List (Path × List (List Char))

/-- `dependencies[folder].append(url)` on a `defaultdict(list)`: append to the
existing entry, or create the key at the end with a singleton list. -/
def addDep (deps : Dependencies) (key : Path) (url : List Char) : Dependencies :=
  match deps with
  | [] => [(key, [url])]
  | (k, us) :: rest =>
    if k = key then (k, us ++ [url]) :: rest
    else (k, us) :: addDep rest key url

/-- `_find_dependencies`: scan the manifest's lines; skip comments; for lines
whose trimmed form begins with `.url`, append `line.split('"')[1]` to the
group of the manifest's folder. `line.split('"')[1]` raises `IndexError` when
the line contains no double quote. -/
def find_dependencies (folder : Path) (lines : List (List Char))
    (deps : Dependencies) : Except PyError Dependencies :=
  match lines with
  | [] => .ok deps
  | raw :: rest =>
    if startsWith "//" (pyStrip raw) then
      find_dependencies folder rest deps
    else if startsWith ".url" (pyStrip raw) then
      match (pySplit '"' (pyStrip raw))[1]? with
      | some v => find_dependencies folder rest (addDep deps folder v)
      | none => .error .indexError
    else
      find_dependencies folder rest deps

/-- A filesystem node: a file with its text lines, or a directory with its
children in enumeration order. -/
inductive FSNode where
  | file (name : String) (lines : List (List Char))
  | dir (name : String) (children : List FSNode)

/-- `_collect_dependencies`: iterate a directory's children; recurse into
subdirectories only when `recursive`; run the extractor on files named
`build.zig.zon`, keyed by the current directory. -/
def collect_dependencies (recursive : Bool) :
    Path → List FSNode → Dependencies → Except PyError Dependencies
  | _, [], deps => .ok deps
  | path, .dir name gcs :: cs, deps =>
    if recursive then
      match collect_dependencies recursive (path ++ [name]) gcs deps with
      | .error e => .error e
      | .ok deps => collect_dependencies recursive path cs deps
    else
      collect_dependencies recursive path cs deps
  | path, .file name lines :: cs, deps =>
    if name = ZON then
      match find_dependencies path lines deps with
      | .error e => .error e
      | .ok deps => collect_dependencies recursive path cs deps
    else
      collect_dependencies recursive path cs deps

/-- `get_dependencies`: start from an empty `defaultdict` and collect over the
root directory's children. -/
def get_dependencies (rootPath : Path) (children : List FSNode)
    (recursive : Bool) : Except PyError Dependencies :=
  collect_dependencies recursive rootPath children []

/-- `get_base`: `base, *parts = url.split("#")`; raise `RuntimeError` when
there is no `#`, else return the part before the first `#`. -/
def get_base (url : List Char) : Except PyError (List Char) :=
  match pySplit '#' url with
  | [] => .error (.runtimeError "Unsupported URL format")
  | base :: parts =>
    if parts = [] then .error (.runtimeError "Unsupported URL format")
    else .ok base

/-- The external `zig fetch` oracle. `hash url` models
`zig fetch <url>` returning captured stdout, `save cwd base` models
`zig fetch --save <base>` run in `cwd`; `none` models a non-zero exit
(which, under `check=True`, raises `CalledProcessError`). -/
structure Oracle where
  hash : List Char → Option (List Char)
  save : Path → List Char → Option Unit

/-- Observable events of a run: oracle subprocess invocations and writes to
standard output. -/
inductive Event where
  | fetch (url : List Char)
  | save (cwd : Path) (base : List Char)
  | out (line : List Char)
  deriving DecidableEq

/-- `update_package`: recompute the base URL, then invoke
`zig fetch --save <base>` with the group's folder as working directory. -/
def update_package (o : Oracle) (folder : Path) (url : List Char) :
    List Event × Option PyError :=
  match get_base url with
  | .error e => ([], some e)
  | .ok base =>
    match o.save folder base with
    | none => ([.save folder base], some .calledProcessError)
    | some _ => ([.save folder base], none)

/-- One iteration of the reconcile loop in `main`, for a single declaration:
compute the base, fetch current and latest hashes, then report or update. -/
def processDecl (o : Oracle) (upd : Bool) (folder : Path) (url : List Char) :
    List Event × Option PyError :=
  match get_base url with
  | .error e => ([], some e)
  | .ok base =>
    match o.hash url with
    | none => ([.fetch url], some .calledProcessError)
    | some current =>
      match o.hash base with
      | none => ([.fetch url, .fetch base], some .calledProcessError)
      | some latest =>
        if current = latest then
          ([.fetch url, .fetch base,
            .out (str "[" ++ base ++ str "] already up to date\n")], none)
        else if upd then
          match update_package o folder url with
          | (tr, some e) => ([.fetch url, .fetch base] ++ tr, some e)
          | (tr, none) =>
            ([.fetch url, .fetch base] ++ tr ++
              [.out (str "[" ++ base ++ str "] updated " ++
                current.take HASH_DISPLAY_LEN ++ str " -> " ++
                latest.take HASH_DISPLAY_LEN ++ str "\n")], none)
        else
          ([.fetch url, .fetch base,
            .out (str "[" ++ base ++ str "] out of date\n")], none)

/-- The inner `for url in urls` loop of `main`; an uncaught error aborts the
remaining iterations. -/
def processUrls (o : Oracle) (upd : Bool) (folder : Path) :
    List (List Char) → List Event × Option PyError
  | [] => ([], none)
  | url :: us =>
    match processDecl o upd folder url with
    | (tr, some e) => (tr, some e)
    | (tr, none) =>
      let r := processUrls o upd folder us
      (tr ++ r.1, r.2)

/-- The outer `for folder, urls in dependencies.items()` loop of `main`. -/
def processGroups (o : Oracle) (upd : Bool) :
    Dependencies → List Event × Option PyError
  | [] => ([], none)
  | (folder, urls) :: rest =>
    match processUrls o upd folder urls with
    | (tr, some e) => (tr, some e)
    | (tr, none) =>
      let r := processGroups o upd rest
      (tr ++ r.1, r.2)

/-- The message written when no dependencies were collected. -/
def noDepsMsg : List Char :=
  str "no build.zig.zon file found (or no URLs in it). did you run the command from the wrong directory?"

/-- The body of `main` after argument parsing: collect dependencies, report
the empty case, otherwise reconcile every group. -/
def mainRun (o : Oracle) (recursive upd : Bool) (rootPath : Path)
    (children : List FSNode) : List Event × Option PyError :=
  match get_dependencies rootPath children recursive with
  | .error e => ([], some e)
  | .ok deps =>
    if deps = [] then ([.out noDepsMsg], none)
    else processGroups o upd deps

/-- Process exit code: `main` returns 0 on normal completion; an uncaught
exception makes the interpreter exit with code 1. -/
def exitCode : Option PyError → Nat
  | none => 0
  | some _ => 1

/-! ### Lemmas about the string primitives -/

theorem splitCharAux_snd_of_not_mem {c : Char} {l : List Char} (h : c ∉ l) :
    (splitCharAux c l).2 = [] := by
  induction l with
  | nil => rfl
  | cons x xs ih =>
    have hx : x ≠ c := fun e => h (e ▸ List.mem_cons_self x xs)
    simp only [splitCharAux, if_neg hx]
    exact ih fun m => h (List.mem_cons_of_mem x m)

theorem get_base_error_of_not_mem {url : List Char} (h : '#' ∉ url) :
    get_base url = .error (.runtimeError "Unsupported URL format") := by
  simp [get_base, pySplit, splitCharAux_snd_of_not_mem h]

theorem processDecl_of_no_fragment (o : Oracle) (upd : Bool) (folder : Path)
    {url : List Char} (h : '#' ∉ url) :
    processDecl o upd folder url =
      ([], some (.runtimeError "Unsupported URL format")) := by
  simp [processDecl, get_base_error_of_not_mem h]

/-- Whether an event is an invocation of the oracle's update/save mode. -/
def isSave : Event → Bool
  | .save _ _ => true
  | _ => false

theorem processDecl_false_no_save (o : Oracle) (folder : Path) (url : List Char) :
    ∀ e ∈ (processDecl o false folder url).1, isSave e = false := by
  intro e he
  cases e with
  | fetch u => rfl
  | out l => rfl
  | save cwd b =>
    exfalso
    unfold processDecl at he
    repeat' split at he
    all_goals simp_all

theorem processUrls_false_no_save (o : Oracle) (folder : Path)
    (urls : List (List Char)) :
    ∀ e ∈ (processUrls o false folder urls).1, isSave e = false := by
  induction urls with
  | nil => intro e he; simp [processUrls] at he
  | cons u us ih =>
    intro e he
    unfold processUrls at he
    split at he
    case _ tr err heq =>
      exact processDecl_false_no_save o folder u e (by rw [heq]; exact he)
    case _ tr heq =>
      rcases List.mem_append.mp he with h | h
      · exact processDecl_false_no_save o folder u e (by rw [heq]; exact h)
      · exact ih e h

theorem processGroups_false_no_save (o : Oracle) (groups : Dependencies) :
    ∀ e ∈ (processGroups o false groups).1, isSave e = false := by
  induction groups with
  | nil => intro e he; simp [processGroups] at he
  | cons g gs ih =>
    intro e he
    unfold processGroups at he
    split at he
    case _ tr err heq =>
      exact processUrls_false_no_save o g.1 g.2 e (by rw [heq]; exact he)
    case _ tr heq =>
      rcases List.mem_append.mp he with h | h
      · exact processUrls_false_no_save o g.1 g.2 e (by rw [heq]; exact h)
      · exact ih e h

/-- C4 (claim): `get_base` on the example URL strips the fragment; on a URL
without `#` it raises `RuntimeError`, and that error is unhandled — the
reconcile loop stops there, so the whole run ends with a non-zero exit. -/
theorem claim_C4 :
    get_base (str "https://example.com/pkg.tar.gz#abcdef1234") =
      .ok (str "https://example.com/pkg.tar.gz") ∧
    (∀ url : List Char, '#' ∉ url →
      get_base url = .error (.runtimeError "Unsupported URL format")) ∧
    (∀ (o : Oracle) (upd : Bool) (folder : Path) (url : List Char)
        (us : List (List Char)) (gs : Dependencies), '#' ∉ url →
      processGroups o upd ((folder, url :: us) :: gs) =
        ([], some (.runtimeError "Unsupported URL format")) ∧
      exitCode (processGroups o upd ((folder, url :: us) :: gs)).2 = 1) := by
  refine ⟨by decide, fun url h => get_base_error_of_not_mem h, ?_⟩
  intro o upd folder url us gs h
  have : processUrls o upd folder (url :: us) =
      ([], some (.runtimeError "Unsupported URL format")) := by
    simp [processUrls, processDecl_of_no_fragment o upd folder h]
  refine ⟨?_, ?_⟩ <;> simp [processGroups, this, exitCode]

/-- Witness for C4 at concrete inputs. -/
theorem claim_C4_witness :
    get_base (str "https://example.com/pkg.tar.gz#abcdef1234") =
      .ok (str "https://example.com/pkg.tar.gz") ∧
    get_base (str "https://example.com/pkg.tar.gz") =
      .error (.runtimeError "Unsupported URL format") ∧
    processGroups { hash := fun _ => none, save := fun _ _ => none } false
        ([(["proj"], [str "https://example.com/pkg.tar.gz"])]) =
      ([], some (.runtimeError "Unsupported URL format")) :=
  ⟨claim_C4.1, claim_C4.2.1 _ (by decide),
    (claim_C4.2.2 _ false ["proj"] _ [] [] (by decide)).1⟩

/-- C3 (claim): when the current and latest hashes of a declaration are
equal, the reconciler emits exactly the "already up to date" line for the
base URL and never invokes the oracle's save mode, whatever the update
flag. -/
theorem claim_C3 (o : Oracle) (upd : Bool) (folder : Path)
    (url base hsh : List Char)
    (hb : get_base url = .ok base) (hc : o.hash url = some hsh)
    (hl : o.hash base = some hsh) :
    processDecl o upd folder url =
      ([.fetch url, .fetch base,
        .out (str "[" ++ base ++ str "] already up to date\n")], none) ∧
    ∀ e ∈ (processDecl o upd folder url).1, isSave e = false := by
  have key : processDecl o upd folder url =
      ([.fetch url, .fetch base,
        .out (str "[" ++ base ++ str "] already up to date\n")], none) := by
    simp [processDecl, hb, hc, hl]
  refine ⟨key, ?_⟩
  rw [key]
  intro e he
  simp only [List.mem_cons, List.not_mem_nil, or_false] at he
  rcases he with rfl | rfl | rfl <;> rfl

/-- Witness for C3 at a concrete oracle and declaration. -/
theorem claim_C3_witness :
    processDecl { hash := fun _ => some (str "samehash1"), save := fun _ _ => some () }
        true ["d"] (str "https://e.com/a.tgz#fff") =
      ([.fetch (str "https://e.com/a.tgz#fff"), .fetch (str "https://e.com/a.tgz"),
        .out (str "[" ++ str "https://e.com/a.tgz" ++ str "] already up to date\n")],
       none) :=
  (claim_C3 _ true ["d"] (str "https://e.com/a.tgz#fff") (str "https://e.com/a.tgz")
    (str "samehash1") (by decide) rfl rfl).1

/-- C2 (claim): when the hashes differ and the update flag is set, the save
mode is invoked exactly once, with the fragment-stripped base URL and the
group's directory as working directory, and the emitted line is
`[<base>] updated <first7(current)> -> <first7(latest)>`. -/
theorem claim_C2 (o : Oracle) (folder : Path) (url base c l : List Char)
    (hb : get_base url = .ok base) (hc : o.hash url = some c)
    (hl : o.hash base = some l) (hne : c ≠ l)
    (hs : o.save folder base = some ()) :
    processDecl o true folder url =
      ([.fetch url, .fetch base, .save folder base,
        .out (str "[" ++ base ++ str "] updated " ++ c.take HASH_DISPLAY_LEN ++
          str " -> " ++ l.take HASH_DISPLAY_LEN ++ str "\n")], none) ∧
    (processDecl o true folder url).1.filter isSave = [.save folder base] := by
  have key : processDecl o true folder url =
      ([.fetch url, .fetch base, .save folder base,
        .out (str "[" ++ base ++ str "] updated " ++ c.take HASH_DISPLAY_LEN ++
          str " -> " ++ l.take HASH_DISPLAY_LEN ++ str "\n")], none) := by
    simp [processDecl, update_package, hb, hc, hl, hne, hs]
  refine ⟨key, ?_⟩
  rw [key]
  simp [isSave, List.filter]

/-- Witness for C2 at a concrete oracle and declaration. -/
theorem claim_C2_witness :
    processDecl
      { hash := fun u => some (if u = str "https://e.com/a.tgz#fff"
          then str "oldhash1234" else str "newhash5678"),
        save := fun _ _ => some () }
      true ["d"] (str "https://e.com/a.tgz#fff") =
      ([.fetch (str "https://e.com/a.tgz#fff"), .fetch (str "https://e.com/a.tgz"),
        .save ["d"] (str "https://e.com/a.tgz"),
        .out (str "[" ++ str "https://e.com/a.tgz" ++ str "] updated " ++
          (str "oldhash1234").take HASH_DISPLAY_LEN ++ str " -> " ++
          (str "newhash5678").take HASH_DISPLAY_LEN ++ str "\n")], none) :=
  (claim_C2 _ ["d"] (str "https://e.com/a.tgz#fff") (str "https://e.com/a.tgz")
    (str "oldhash1234") (str "newhash5678")
    (by decide) (by decide) (by decide) (by decide) rfl).1

/-- C7 (claim): when the hashes differ and the update flag is not set, the
reconciler emits exactly the "out of date" line, and with the update flag
unset no save invocation occurs anywhere in the run. -/
theorem claim_C7 (o : Oracle) (folder : Path) (url base c l : List Char)
    (hb : get_base url = .ok base) (hc : o.hash url = some c)
    (hl : o.hash base = some l) (hne : c ≠ l) :
    processDecl o false folder url =
      ([.fetch url, .fetch base,
        .out (str "[" ++ base ++ str "] out of date\n")], none) ∧
    ∀ (groups : Dependencies), ∀ e ∈ (processGroups o false groups).1,
      isSave e = false := by
  exact ⟨by simp [processDecl, hb, hc, hl, hne],
    fun groups => processGroups_false_no_save o groups⟩

/-- Witness for C7 at a concrete oracle, declaration and run. -/
theorem claim_C7_witness :
    processDecl
      { hash := fun u => some (if u = str "https://e.com/a.tgz#fff"
          then str "oldhash1234" else str "newhash5678"),
        save := fun _ _ => some () }
      false ["d"] (str "https://e.com/a.tgz#fff") =
      ([.fetch (str "https://e.com/a.tgz#fff"), .fetch (str "https://e.com/a.tgz"),
        .out (str "[" ++ str "https://e.com/a.tgz" ++ str "] out of date\n")], none) ∧
    (processGroups
      { hash := fun u => some (if u = str "https://e.com/a.tgz#fff"
          then str "oldhash1234" else str "newhash5678"),
        save := fun _ _ => some () }
      false [(["d"], [str "https://e.com/a.tgz#fff"])]).1.all
        (fun e => !isSave e) = true := by
  have h := claim_C7
    { hash := fun u => some (if u = str "https://e.com/a.tgz#fff"
        then str "oldhash1234" else str "newhash5678"),
      save := fun _ _ => some () }
    ["d"] (str "https://e.com/a.tgz#fff") (str "https://e.com/a.tgz")
    (str "oldhash1234") (str "newhash5678")
    (by decide) (by decide) (by decide) (by decide)
  refine ⟨h.1, ?_⟩
  rw [List.all_eq_true]
  intro e he
  simp [h.2 [(["d"], [str "https://e.com/a.tgz#fff"])] e he]

/-- C1 (amended): when the save invocation for a declaration exits non-zero,
the `CalledProcessError` propagates unhandled — the run aborts at that
declaration and the subsequent declarations are not processed at all. -/
theorem claim_C1 (o : Oracle) (folder : Path) (url base c l : List Char)
    (us : List (List Char))
    (hb : get_base url = .ok base) (hc : o.hash url = some c)
    (hl : o.hash base = some l) (hne : c ≠ l)
    (hs : o.save folder base = none) :
    processUrls o true folder (url :: us) =
      ([.fetch url, .fetch base, .save folder base],
       some .calledProcessError) := by
  simp [processUrls, processDecl, update_package, hb, hc, hl, hne, hs]

/-- C1 counterexample, against the claim as stated: with two declarations and
a save that fails on the first, the run does not continue — the second
declaration is never fetched and the run ends in an uncaught error. -/
theorem claim_C1_counterexample :
    (processUrls
      { hash := fun u => some (if u = str "https://a.com/p.tgz#111"
          then str "hasholder" else str "hashnewer"),
        save := fun _ _ => none }
      true ["d"] [str "https://a.com/p.tgz#111", str "https://b.com/q.tgz#222"]).2 =
      some .calledProcessError ∧
    Event.fetch (str "https://b.com/q.tgz#222") ∉
      (processUrls
        { hash := fun u => some (if u = str "https://a.com/p.tgz#111"
            then str "hasholder" else str "hashnewer"),
          save := fun _ _ => none }
        true ["d"] [str "https://a.com/p.tgz#111", str "https://b.com/q.tgz#222"]).1 := by
  decide

/-- Witness for the amended C1 at a concrete oracle and declarations. -/
theorem claim_C1_witness :
    processUrls
      { hash := fun u => some (if u = str "https://a.com/p.tgz#111"
          then str "hasholder" else str "hashnewer"),
        save := fun _ _ => none }
      true ["d"] [str "https://a.com/p.tgz#111", str "https://b.com/q.tgz#222"] =
      ([.fetch (str "https://a.com/p.tgz#111"), .fetch (str "https://a.com/p.tgz"),
        .save ["d"] (str "https://a.com/p.tgz")], some .calledProcessError) :=
  claim_C1 _ ["d"] (str "https://a.com/p.tgz#111") (str "https://a.com/p.tgz")
    (str "hasholder") (str "hashnewer") [str "https://b.com/q.tgz#222"]
    (by decide) (by decide) (by decide) (by decide) rfl

/-! ### The spec's description of the extractor, for refinement claims -/

/-- Following the spec's words: "the text between the first pair of
double-quote characters on that line", defined only when such a pair
exists. -/
def betweenFirstPair (line : List Char) : Option (List Char) :=
  match line.dropWhile (fun a => a ≠ '"') with
  | [] => none
  | _ :: rest =>
    if '"' ∈ rest then some (rest.takeWhile (fun a => a ≠ '"')) else none

/-- Following the spec's words: the quoted values of the non-comment trimmed
lines that begin with `.url`, in file order, with comment lines excluded. -/
def specExtract (lines : List (List Char)) : List (List Char) :=
  lines.filterMap fun raw =>
    let line := pyStrip raw
    if startsWith "//" line then none
    else if startsWith ".url" line then betweenFirstPair line
    else none

/-- A manifest line is well formed when, if it is a non-comment `.url` line,
it carries at least two double quotes, so that "the text between the first
pair of quotes" is well defined. -/
def lineWF (raw : List Char) : Bool :=
  let line := pyStrip raw
  if startsWith "//" line then true
  else if startsWith ".url" line then decide (2 ≤ line.count '"')
  else true

theorem splitCharAux_fst (c : Char) (l : List Char) :
    (splitCharAux c l).1 = l.takeWhile (fun a => a ≠ c) := by
  induction l with
  | nil => rfl
  | cons x xs ih =>
    by_cases hx : x = c
    · subst hx; simp [splitCharAux, List.takeWhile_cons]
    · simp [splitCharAux, hx, List.takeWhile_cons, ih]

theorem splitCharAux_snd_head (c : Char) (l : List Char) :
    (splitCharAux c l).2.head? =
      (match l.dropWhile (fun a => a ≠ c) with
       | [] => none
       | _ :: rest => some (rest.takeWhile (fun a => a ≠ c))) := by
  induction l with
  | nil => rfl
  | cons x xs ih =>
    by_cases hx : x = c
    · subst hx
      simp [splitCharAux, List.dropWhile_cons, splitCharAux_fst]
    · simp only [splitCharAux, List.dropWhile_cons]
      simp [hx, ih]

theorem pySplit_get1 (c : Char) (l : List Char) :
    (pySplit c l)[1]? = (splitCharAux c l).2.head? := by
  rcases h : (splitCharAux c l).2 with _ | ⟨a, t⟩ <;> simp [pySplit, h]

theorem mem_of_two_le_count {c : Char} {l : List Char} (h : 2 ≤ l.count c) :
    ∃ rest, l.dropWhile (fun a => a ≠ c) = c :: rest ∧ c ∈ rest := by
  induction l with
  | nil => simp [List.count_nil] at h
  | cons x xs ih =>
    by_cases hx : x = c
    · subst hx
      have hc : 0 < xs.count x := by
        rw [List.count_cons_self] at h; omega
      refine ⟨xs, ?_, List.count_pos_iff.mp hc⟩
      rw [List.dropWhile_cons, if_neg (by simp)]
    · obtain ⟨rest, hd, hm⟩ :=
        ih (by rwa [List.count_cons_of_ne (fun e => hx e.symm)] at h)
      refine ⟨rest, ?_, hm⟩
      rw [List.dropWhile_cons, if_pos (by simp [hx]), hd]

/-- When a line has at least two double quotes, the code's
`line.split('"')[1]` agrees with the spec's "text between the first pair of
double-quote characters". -/
theorem split_get1_eq_betweenFirstPair {line : List Char}
    (h : 2 ≤ line.count '"') :
    ∃ v, (pySplit '"' line)[1]? = some v ∧ betweenFirstPair line = some v := by
  obtain ⟨rest, hd, hm⟩ := mem_of_two_le_count h
  refine ⟨rest.takeWhile (fun a => a ≠ '"'), ?_, ?_⟩
  · rw [pySplit_get1, splitCharAux_snd_head, hd]
  · rw [betweenFirstPair, hd]
    simp [hm]

theorem find_dependencies_eq_spec {lines : List (List Char)}
    (hw : ∀ raw ∈ lines, lineWF raw = true) (folder : Path) :
    ∀ deps, find_dependencies folder lines deps =
      .ok ((specExtract lines).foldl (fun d v => addDep d folder v) deps) := by
  induction lines with
  | nil => intro deps; rfl
  | cons raw rest ih =>
    intro deps
    have hr := hw raw (List.mem_cons_self _ _)
    have hrest : ∀ r ∈ rest, lineWF r = true :=
      fun r hm => hw r (List.mem_cons_of_mem _ hm)
    by_cases hcom : startsWith "//" (pyStrip raw) = true
    · rw [show specExtract (raw :: rest) = specExtract rest by
        simp [specExtract, List.filterMap_cons, hcom]]
      rw [show find_dependencies folder (raw :: rest) deps =
          find_dependencies folder rest deps by
        simp [find_dependencies, hcom]]
      exact ih hrest deps
    · by_cases hurl : startsWith ".url" (pyStrip raw) = true
      · have hcount : 2 ≤ (pyStrip raw).count '"' := by
          have := hr
          unfold lineWF at this
          rw [if_neg hcom, if_pos hurl] at this
          exact of_decide_eq_true this
        obtain ⟨v, hcode, hspec⟩ := split_get1_eq_betweenFirstPair hcount
        rw [show specExtract (raw :: rest) = v :: specExtract rest by
          simp [specExtract, List.filterMap_cons, hcom, hurl, hspec]]
        rw [show find_dependencies folder (raw :: rest) deps =
            find_dependencies folder rest (addDep deps folder v) by
          simp [find_dependencies, hcom, hurl, hcode]]
        rw [List.foldl_cons]
        exact ih hrest (addDep deps folder v)
      · rw [show specExtract (raw :: rest) = specExtract rest by
          simp [specExtract, List.filterMap_cons, hcom, hurl]]
        rw [show find_dependencies folder (raw :: rest) deps =
            find_dependencies folder rest deps by
          simp [find_dependencies, hcom, hurl]]
        exact ih hrest deps

theorem foldl_addDep_acc (folder : Path) (vs : List (List Char))
    (acc : List (List Char)) :
    vs.foldl (fun d v => addDep d folder v) [(folder, acc)] =
      [(folder, acc ++ vs)] := by
  induction vs generalizing acc with
  | nil => simp
  | cons v vs ih => simp [addDep, ih]

theorem foldl_addDep_nil (folder : Path) (vs : List (List Char)) :
    vs.foldl (fun d v => addDep d folder v) [] =
      if vs = [] then [] else [(folder, vs)] := by
  cases vs with
  | nil => rfl
  | cons v vs => simp [addDep, foldl_addDep_acc]

/-- C5 (claim): on a manifest whose non-comment `.url` lines each have a
first pair of double quotes, the extractor returns exactly the quoted values
of those lines, in file order, with comment lines (even ones containing
`.url` text) excluded. -/
theorem claim_C5 (folder : Path) (lines : List (List Char))
    (hw : ∀ raw ∈ lines, lineWF raw = true) :
    find_dependencies folder lines [] =
      .ok (if specExtract lines = [] then []
           else [(folder, specExtract lines)]) := by
  rw [find_dependencies_eq_spec hw folder [], foldl_addDep_nil]

/-- Witness for C5 on a concrete manifest: two `.url` lines, a comment line
containing `.url` text, and assorted other lines. -/
theorem claim_C5_witness :
    find_dependencies ["proj"]
      [str "  // .url = \"not-this-one\",",
       str "  .url = \"https://a.com/p.tgz#111\",",
       str "  .hash = \"12200000\",",
       str "  .url = \"https://b.com/q.tgz#222\","] [] =
      .ok (if specExtract
          [str "  // .url = \"not-this-one\",",
           str "  .url = \"https://a.com/p.tgz#111\",",
           str "  .hash = \"12200000\",",
           str "  .url = \"https://b.com/q.tgz#222\","] = [] then []
        else [(["proj"], specExtract
          [str "  // .url = \"not-this-one\",",
           str "  .url = \"https://a.com/p.tgz#111\",",
           str "  .hash = \"12200000\",",
           str "  .url = \"https://b.com/q.tgz#222\","])]) :=
  claim_C5 ["proj"] _ (by decide)

/-! ### The spec's description of the tree walker, for refinement claims -/

/-- Following the spec's words for `recursive = false`: only a manifest file
directly inside the root is considered, never one in a subdirectory. -/

def depth1Manifests (path : Path) (children : List FSNode) :
    List (Path × List (List Char)) :=
  children.filterMap fun c =>
    match c with
    | .file name lines => if name = ZON then some (path, lines) else none
    | .dir _ _ => none

def allManifests : Path → List FSNode → List (Path × List (List Char))
  | _, [] => []
  | path, .file name lines :: cs =>
    (if name = ZON then [(path, lines)] else []) ++ allManifests path cs
  | path, .dir name gcs :: cs =>
    allManifests (path ++ [name]) gcs ++ allManifests path cs

def manifestPairs (ms : List (Path × List (List Char))) : List (Path × List Char) :=
  ms.flatMap fun m => (specExtract m.2).map fun v => (m.1, v)

def addPairs (deps : Dependencies) (ps : List (Path × List Char)) : Dependencies :=
  ps.foldl (fun d p => addDep d p.1 p.2) deps

def wfChildren : List FSNode → Bool
  | [] => true
  | .file name lines :: cs =>
    (if name = ZON then lines.all lineWF else true) && wfChildren cs
  | .dir _ gcs :: cs => wfChildren gcs && wfChildren cs

theorem addPairs_append (deps : Dependencies) (ps qs : List (Path × List Char)) :
    addPairs deps (ps ++ qs) = addPairs (addPairs deps ps) qs :=
  List.foldl_append _ _ _ _

theorem find_dependencies_eq_pairs {lines : List (List Char)}
    (hw : ∀ raw ∈ lines, lineWF raw = true) (folder : Path) (deps : Dependencies) :
    find_dependencies folder lines deps =
      .ok (addPairs deps ((specExtract lines).map fun v => (folder, v))) := by
  rw [find_dependencies_eq_spec hw folder deps]
  simp [addPairs, List.foldl_map]

theorem collect_false_eq_spec (children : List FSNode) (path : Path)
    (hw : wfChildren children = true) (deps : Dependencies) :
    collect_dependencies false path children deps =
      .ok (addPairs deps (manifestPairs (depth1Manifests path children))) := by
  induction children generalizing deps with
  | nil => simp [collect_dependencies, depth1Manifests, manifestPairs, addPairs]
  | cons c cs ih =>
    cases c with
    | dir name gcs =>
      simp only [wfChildren, Bool.and_eq_true] at hw
      rw [show collect_dependencies false path (.dir name gcs :: cs) deps =
          collect_dependencies false path cs deps by
        simp [collect_dependencies]]
      rw [ih hw.2 deps]
      simp [depth1Manifests, manifestPairs, List.filterMap_cons]
    | file name lines =>
      simp only [wfChildren, Bool.and_eq_true] at hw
      by_cases hz : name = ZON
      · have hlines : ∀ raw ∈ lines, lineWF raw = true := by
          have h1 := hw.1; rw [if_pos hz] at h1
          exact fun raw h => List.all_eq_true.mp h1 raw h
        have hfd := find_dependencies_eq_pairs hlines path deps
        rw [show collect_dependencies false path (.file name lines :: cs) deps =
            collect_dependencies false path cs
              (addPairs deps ((specExtract lines).map fun v => (path, v))) by
          simp [collect_dependencies, hz, hfd]]
        rw [ih hw.2]
        simp [depth1Manifests, manifestPairs, hz, List.filterMap_cons,
          List.flatMap_cons, addPairs_append]
      · rw [show collect_dependencies false path (.file name lines :: cs) deps =
            collect_dependencies false path cs deps by
          simp [collect_dependencies, hz]]
        rw [ih hw.2 deps]
        simp [depth1Manifests, manifestPairs, hz, List.filterMap_cons]

theorem collect_true_eq_spec (path : Path) (children : List FSNode)
    (hw : wfChildren children = true) (deps : Dependencies) :
    collect_dependencies true path children deps =
      .ok (addPairs deps (manifestPairs (allManifests path children))) := by
  induction path, children using allManifests.induct generalizing deps with
  | case1 path =>
    simp [collect_dependencies, allManifests, manifestPairs, addPairs]
  | case2 path name lines cs ih =>
    simp only [wfChildren, Bool.and_eq_true] at hw
    by_cases hz : name = ZON
    · have hlines : ∀ raw ∈ lines, lineWF raw = true := by
        have h1 := hw.1; rw [if_pos hz] at h1
        exact fun raw h => List.all_eq_true.mp h1 raw h
      have hfd := find_dependencies_eq_pairs hlines path deps
      rw [show collect_dependencies true path (.file name lines :: cs) deps =
          collect_dependencies true path cs
            (addPairs deps ((specExtract lines).map fun v => (path, v))) by
        simp [collect_dependencies, hz, hfd]]
      rw [ih hw.2]
      simp [allManifests, manifestPairs, hz, List.flatMap_cons, addPairs_append]
    · rw [show collect_dependencies true path (.file name lines :: cs) deps =
          collect_dependencies true path cs deps by
        simp [collect_dependencies, hz]]
      rw [ih hw.2 deps]
      simp [allManifests, manifestPairs, hz]
  | case3 path name gcs cs ihg ih =>
    simp only [wfChildren, Bool.and_eq_true] at hw
    rw [show collect_dependencies true path (.dir name gcs :: cs) deps =
        (match collect_dependencies true (path ++ [name]) gcs deps with
         | .error e => .error e
         | .ok deps => collect_dependencies true path cs deps) by
      simp [collect_dependencies]]
    rw [ihg hw.1 deps]
    show collect_dependencies true path cs
        (addPairs deps (manifestPairs (allManifests (path ++ [name]) gcs))) = _
    rw [ih hw.2]
    simp [allManifests, manifestPairs, List.flatMap_append, addPairs_append]

/-- The manifests in scope for a given recursion flag, in the spec's words:
only those directly inside the root when not recursive, those at any depth
otherwise. -/
def manifestsInScope (recursive : Bool) (path : Path)
    (children : List FSNode) : List (Path × List (List Char)) :=
  if recursive then allManifests path children
  else depth1Manifests path children

/-- C6 (claim): with `recursive = false` the tree walker collects URLs only
from a manifest directly inside the root, never from subdirectories; with
`recursive = true` it collects manifests at any depth, each grouped under
its own parent directory, not under the root. -/
theorem claim_C6 (path : Path) (children : List FSNode)
    (hw : wfChildren children = true) :
    get_dependencies path children false =
      .ok (addPairs [] (manifestPairs (depth1Manifests path children))) ∧
    get_dependencies path children true =
      .ok (addPairs [] (manifestPairs (allManifests path children))) :=
  ⟨collect_false_eq_spec children path hw [],
   collect_true_eq_spec path children hw []⟩

/-- Witness for C6 on a concrete tree: one manifest at the root and one in a
subdirectory. -/
theorem claim_C6_witness :
    get_dependencies ["root"]
      [.file "build.zig.zon" [str ".url = \"https://a.com/p.tgz#111\","],
       .dir "sub" [.file "build.zig.zon" [str ".url = \"https://b.com/q.tgz#222\","]]]
      false =
      .ok (addPairs [] (manifestPairs (depth1Manifests ["root"]
        [.file "build.zig.zon" [str ".url = \"https://a.com/p.tgz#111\","],
         .dir "sub" [.file "build.zig.zon" [str ".url = \"https://b.com/q.tgz#222\","]]]))) ∧
    get_dependencies ["root"]
      [.file "build.zig.zon" [str ".url = \"https://a.com/p.tgz#111\","],
       .dir "sub" [.file "build.zig.zon" [str ".url = \"https://b.com/q.tgz#222\","]]]
      true =
      .ok (addPairs [] (manifestPairs (allManifests ["root"]
        [.file "build.zig.zon" [str ".url = \"https://a.com/p.tgz#111\","],
         .dir "sub" [.file "build.zig.zon" [str ".url = \"https://b.com/q.tgz#222\","]]]))) :=
  claim_C6 ["root"]
    [.file "build.zig.zon" [str ".url = \"https://a.com/p.tgz#111\","],
     .dir "sub" [.file "build.zig.zon" [str ".url = \"https://b.com/q.tgz#222\","]]]
    (by simp [wfChildren]; decide)

/-- C8 (claim): when no manifest file is in scope, or every manifest in
scope yields zero URLs, the collected mapping is empty and the program
writes the single explanatory line, performs no oracle invocation, and
exits with code 0. -/
theorem claim_C8 (o : Oracle) (recursive upd : Bool) (path : Path)
    (children : List FSNode) (hw : wfChildren children = true)
    (hempty : manifestPairs (manifestsInScope recursive path children) = []) :
    get_dependencies path children recursive = .ok [] ∧
    mainRun o recursive upd path children = ([.out noDepsMsg], none) ∧
    exitCode (mainRun o recursive upd path children).2 = 0 := by
  have hdeps : get_dependencies path children recursive = .ok [] := by
    cases recursive with
    | false =>
      rw [get_dependencies, collect_false_eq_spec children path hw []]
      simp only [manifestsInScope, Bool.false_eq_true, if_false] at hempty
      rw [hempty]
      rfl
    | true =>
      rw [get_dependencies, collect_true_eq_spec path children hw []]
      simp only [manifestsInScope, if_true] at hempty
      rw [hempty]
      rfl
  have hrun : mainRun o recursive upd path children =
      ([.out noDepsMsg], none) := by
    simp [mainRun, hdeps]
  exact ⟨hdeps, hrun, by rw [hrun]; rfl⟩

/-- Witness for C8 on a concrete tree: a non-manifest file at the root and a
manifest containing only a comment line in a subdirectory. -/
theorem claim_C8_witness :
    get_dependencies ["root"]
      [.file "README.md" [str "hello"],
       .dir "sub" [.file "build.zig.zon" [str "// .url = \"commented-out\","]]]
      true = .ok [] ∧
    mainRun { hash := fun _ => none, save := fun _ _ => none } true false ["root"]
      [.file "README.md" [str "hello"],
       .dir "sub" [.file "build.zig.zon" [str "// .url = \"commented-out\","]]] =
      ([.out noDepsMsg], none) ∧
    exitCode (mainRun { hash := fun _ => none, save := fun _ _ => none } true false
      ["root"]
      [.file "README.md" [str "hello"],
       .dir "sub" [.file "build.zig.zon" [str "// .url = \"commented-out\","]]]).2 = 0 :=
  claim_C8 { hash := fun _ => none, save := fun _ _ => none } true false ["root"]
    [.file "README.md" [str "hello"],
     .dir "sub" [.file "build.zig.zon" [str "// .url = \"commented-out\","]]]
    (by simp [wfChildren]; decide)
    (by simp [manifestsInScope, allManifests, manifestPairs, ZON, specExtract]; decide)

/-! ### Invariants of the dependency mapping -/

theorem addDep_ne_nil (deps : Dependencies) (k : Path) (u : List Char) :
    addDep deps k u ≠ [] := by
  cases deps with
  | nil => simp [addDep]
  | cons p rest =>
    rcases p with ⟨k', us⟩
    simp only [addDep]
    split <;> simp

theorem addDep_valuesNonempty {deps : Dependencies} (k : Path) (u : List Char)
    (h : ∀ p ∈ deps, p.2 ≠ []) : ∀ p ∈ addDep deps k u, p.2 ≠ [] := by
  induction deps with
  | nil =>
    intro p hp
    simp only [addDep, List.mem_singleton] at hp
    subst hp
    simp
  | cons q rest ih =>
    rcases q with ⟨k', us⟩
    intro p hp
    simp only [addDep] at hp
    split at hp
    · rcases List.mem_cons.mp hp with rfl | hmem
      · simp
      · exact h p (List.mem_cons_of_mem _ hmem)
    · rcases List.mem_cons.mp hp with rfl | hmem
      · exact h _ (List.mem_cons_self _ _)
      · exact ih (fun q hq => h q (List.mem_cons_of_mem _ hq)) p hmem

theorem find_dependencies_valuesNonempty (folder : Path) :
    ∀ (lines : List (List Char)) (deps deps' : Dependencies),
      (∀ p ∈ deps, p.2 ≠ []) →
      find_dependencies folder lines deps = .ok deps' →
      ∀ p ∈ deps', p.2 ≠ [] := by
  intro lines
  induction lines with
  | nil =>
    intro deps deps' h he
    unfold find_dependencies at he
    cases he
    exact h
  | cons raw rest ih =>
    intro deps deps' h he
    unfold find_dependencies at he
    split at he
    · exact ih deps deps' h he
    · split at he
      · split at he
        · exact ih _ deps' (addDep_valuesNonempty _ _ h) he
        · cases he
      · exact ih deps deps' h he

theorem collect_valuesNonempty (r : Bool) (path : Path) (children : List FSNode) :
    ∀ deps deps', (∀ p ∈ deps, p.2 ≠ []) →
      collect_dependencies r path children deps = .ok deps' →
      ∀ p ∈ deps', p.2 ≠ [] := by
  induction path, children using allManifests.induct with
  | case1 path =>
    intro deps deps' h he
    simp only [collect_dependencies] at he
    cases he
    exact h
  | case2 path name lines cs ih =>
    intro deps deps' h he
    simp only [collect_dependencies] at he
    split at he
    · split at he
      · cases he
      · rename_i dmid heq
        exact ih dmid deps'
          (find_dependencies_valuesNonempty path lines deps dmid h heq) he
    · exact ih deps deps' h he
  | case3 path name gcs cs ihg ih =>
    intro deps deps' h he
    simp only [collect_dependencies] at he
    split at he
    · split at he
      · cases he
      · rename_i dmid heq
        exact ih dmid deps' (ihg deps dmid h heq) he
    · exact ih deps deps' h he

theorem addPairs_ne_nil_of_ne {deps : Dependencies} (h : deps ≠ [])
    (ps : List (Path × List Char)) : addPairs deps ps ≠ [] := by
  induction ps generalizing deps with
  | nil => exact h
  | cons p ps ih => exact ih (addDep_ne_nil deps p.1 p.2)

theorem addPairs_nil_iff (ps : List (Path × List Char)) :
    addPairs [] ps = [] ↔ ps = [] := by
  cases ps with
  | nil => simp [addPairs]
  | cons p ps =>
    constructor
    · intro h
      exact absurd h (addPairs_ne_nil_of_ne (addDep_ne_nil [] p.1 p.2) ps)
    · intro h
      exact absurd h (by simp)

/-- C10 (claim): every key of the mapping returned by `get_dependencies`
maps to a non-empty list of URLs; on well-formed trees the mapping is empty
iff no `.url` declaration was extracted anywhere in scope, so a manifest
with zero URLs contributes no key. -/
theorem claim_C10 (r : Bool) (path : Path) (children : List FSNode)
    (deps : Dependencies) (h : get_dependencies path children r = .ok deps) :
    (∀ p ∈ deps, p.2 ≠ []) ∧
    (wfChildren children = true →
      (deps = [] ↔ manifestPairs (manifestsInScope r path children) = [])) := by
  constructor
  · exact collect_valuesNonempty r path children [] deps (by simp) h
  · intro hw
    have hspec : get_dependencies path children r =
        .ok (addPairs [] (manifestPairs (manifestsInScope r path children))) := by
      cases r with
      | false =>
        rw [get_dependencies, collect_false_eq_spec children path hw []]
        simp [manifestsInScope]
      | true =>
        rw [get_dependencies, collect_true_eq_spec path children hw []]
        simp [manifestsInScope]
    rw [h] at hspec
    have hdeps : deps =
        addPairs [] (manifestPairs (manifestsInScope r path children)) := by
      cases hspec
      rfl
    rw [hdeps]
    exact addPairs_nil_iff _

/-- Witness for C10 on a concrete tree with one declaration. -/
theorem claim_C10_witness :
    (∀ p ∈ ([((["root"] : Path), [str "https://a.com/p.tgz#111"])] : Dependencies),
      p.2 ≠ []) ∧
    (([((["root"] : Path), [str "https://a.com/p.tgz#111"])] : Dependencies) = [] ↔
      manifestPairs (manifestsInScope false ["root"]
        [.file "build.zig.zon" [str ".url = \"https://a.com/p.tgz#111\","]]) = []) := by
  have h := claim_C10 false ["root"]
    [.file "build.zig.zon" [str ".url = \"https://a.com/p.tgz#111\","]]
    [(["root"], [str "https://a.com/p.tgz#111"])]
    (by simp [get_dependencies, collect_dependencies, ZON]; decide)
  exact ⟨h.1, h.2 (by simp [wfChildren]; decide)⟩

/-! ### Behaviour of the extractor on malformed `.url` lines -/

theorem pySplit_get1_none {line : List Char} (h : '"' ∉ line) :
    (pySplit '"' line)[1]? = none := by
  rw [pySplit_get1, splitCharAux_snd_of_not_mem h]
  rfl

theorem dropWhile_append_all (p : Char → Bool) :
    ∀ (u : List Char), (∀ a ∈ u, p a = true) → ∀ (v : List Char),
      (u ++ v).dropWhile p = v.dropWhile p := by
  intro u
  induction u with
  | nil => intro _ v; rfl
  | cons x xs ih =>
    intro h v
    rw [List.cons_append, List.dropWhile_cons,
      if_pos (h x (List.mem_cons_self _ _))]
    exact ih (fun a ha => h a (List.mem_cons_of_mem _ ha)) v

theorem pySplit_get1_one_quote {u v : List Char} (hu : '"' ∉ u)
    (hv : '"' ∉ v) : (pySplit '"' (u ++ '"' :: v))[1]? = some v := by
  rw [pySplit_get1, splitCharAux_snd_head]
  have hdu : (u ++ '"' :: v).dropWhile (fun a => a ≠ '"') = '"' :: v := by
    rw [dropWhile_append_all (fun a => a ≠ '"') u
      (fun a ha => decide_eq_true (fun e => hu (e ▸ ha))) ('"' :: v)]
    rw [List.dropWhile_cons, if_neg (by simp)]
  rw [hdu]
  show some (v.takeWhile (fun a => a ≠ '"')) = some v
  have ht : v.takeWhile (fun a => a ≠ '"') = v :=
    List.takeWhile_eq_self_iff.mpr
      (fun a ha => decide_eq_true (fun e => hv (e ▸ ha)))
  rw [ht]

theorem find_dependencies_error_of_bad (folder : Path) {raw : List Char}
    (hcom : startsWith "//" (pyStrip raw) = false)
    (hurl : startsWith ".url" (pyStrip raw) = true)
    (hq : '"' ∉ pyStrip raw) :
    ∀ (pre : List (List Char)), (∀ l ∈ pre, lineWF l = true) →
    ∀ (rest : List (List Char)) (deps : Dependencies),
      find_dependencies folder (pre ++ raw :: rest) deps =
        .error .indexError := by
  intro pre
  induction pre with
  | nil =>
    intro _ rest deps
    rw [List.nil_append]
    unfold find_dependencies
    rw [if_neg (by simp [hcom]), if_pos hurl, pySplit_get1_none hq]
  | cons l pre ih =>
    intro hwf rest deps
    have hl := hwf l (List.mem_cons_self _ _)
    have hpre : ∀ x ∈ pre, lineWF x = true :=
      fun x hm => hwf x (List.mem_cons_of_mem _ hm)
    rw [List.cons_append]
    unfold find_dependencies
    by_cases hcoml : startsWith "//" (pyStrip l) = true
    · rw [if_pos hcoml]
      exact ih hpre rest deps
    · by_cases hurll : startsWith ".url" (pyStrip l) = true
      · have hcount : 2 ≤ (pyStrip l).count '"' := by
          unfold lineWF at hl
          rw [if_neg hcoml, if_pos hurll] at hl
          exact of_decide_eq_true hl
        obtain ⟨v, hcode, _⟩ := split_get1_eq_betweenFirstPair hcount
        rw [if_neg hcoml, if_pos hurll, hcode]
        exact ih hpre rest (addDep deps folder v)
      · rw [if_neg hcoml, if_neg hurll]
        exact ih hpre rest deps

/-- C9 (claim): a non-comment `.url` line with no double quote makes the
extractor raise an uncaught `IndexError` — the line is neither skipped nor
reported as a format error — aborting the run with a non-zero exit; and on
such a line with exactly one double quote the extracted value is everything
after that quote rather than text between a pair of quotes. -/
theorem claim_C9 :
    (∀ (folder : Path) (raw : List Char),
      startsWith "//" (pyStrip raw) = false →
      startsWith ".url" (pyStrip raw) = true →
      '"' ∉ pyStrip raw →
      ∀ (pre : List (List Char)), (∀ l ∈ pre, lineWF l = true) →
      ∀ (rest : List (List Char)) (deps : Dependencies),
        find_dependencies folder (pre ++ raw :: rest) deps =
          .error .indexError) ∧
    (∀ (o : Oracle) (r upd : Bool) (path : Path) (raw : List Char),
      startsWith "//" (pyStrip raw) = false →
      startsWith ".url" (pyStrip raw) = true →
      '"' ∉ pyStrip raw →
      ∀ (rest : List (List Char)) (cs : List FSNode),
        mainRun o r upd path (.file ZON (raw :: rest) :: cs) =
          ([], some .indexError) ∧
        exitCode (mainRun o r upd path (.file ZON (raw :: rest) :: cs)).2 = 1) ∧
    (∀ (folder : Path) (raw u v : List Char),
      pyStrip raw = u ++ '"' :: v →
      startsWith "//" (pyStrip raw) = false →
      startsWith ".url" (pyStrip raw) = true →
      '"' ∉ u → '"' ∉ v →
      ∀ (rest : List (List Char)) (deps : Dependencies),
        find_dependencies folder (raw :: rest) deps =
          find_dependencies folder rest (addDep deps folder v)) := by
  refine ⟨fun folder raw hcom hurl hq =>
      find_dependencies_error_of_bad folder hcom hurl hq, ?_, ?_⟩
  · intro o r upd path raw hcom hurl hq rest cs
    have hfind : find_dependencies path (raw :: rest) [] = .error .indexError :=
      find_dependencies_error_of_bad path hcom hurl hq [] (by simp) rest []
    have hcol : collect_dependencies r path (.file ZON (raw :: rest) :: cs) [] =
        .error .indexError := by
      simp only [collect_dependencies]
      rw [if_pos trivial, hfind]
    have hrun : mainRun o r upd path (.file ZON (raw :: rest) :: cs) =
        ([], some .indexError) := by
      simp [mainRun, get_dependencies, hcol]
    exact ⟨hrun, by rw [hrun]; rfl⟩
  · intro folder raw u v hstrip hcom hurl hu hv rest deps
    conv_lhs => unfold find_dependencies
    rw [if_neg (by simp [hcom]), if_pos hurl, hstrip,
      pySplit_get1_one_quote hu hv]

/-- Witness for C9 at concrete malformed lines. -/
theorem claim_C9_witness :
    find_dependencies ["p"] [str ".url = no-quote-here"] [] =
      .error .indexError ∧
    mainRun { hash := fun _ => none, save := fun _ _ => none } false false ["p"]
      [.file ZON [str ".url = no-quote-here"]] = ([], some .indexError) ∧
    find_dependencies ["p"] [str ".url = \"oops"] [] =
      find_dependencies ["p"] [] (addDep [] ["p"] (str "oops")) :=
  ⟨claim_C9.1 ["p"] (str ".url = no-quote-here")
      (by decide) (by decide) (by decide) [] (by simp) [] [],
   (claim_C9.2.1 { hash := fun _ => none, save := fun _ _ => none } false false
      ["p"] (str ".url = no-quote-here")
      (by decide) (by decide) (by decide) [] []).1,
   claim_C9.2.2 ["p"] (str ".url = \"oops") (str ".url = ") (str "oops")
      (by decide) (by decide) (by decide) (by decide) (by decide) [] []⟩

end ZigDeps
